import Mathlib

/-!
Verification of the temporal correlation and retrieval core of the
wearable-observation MCP system: the artifact store, timestamp codec,
context assembler, image resolver, query-response parsing and the
ingestion HTTP handlers.  JavaScript strings are embedded as character
lists, byte buffers as lists of naturals below 256, directories as
association lists from file names to byte or text contents, and
fallible I/O as explicit outcome values.
-/

namespace MCP

/-- JavaScript strings are modelled as lists of characters. -/
abbrev LC := List Char

/-! ## Base64 (model of Buffer.from(s, base64) and buf.toString(base64)) -/

/-- The standard base64 alphabet used by Node buffers. -/
def b64Alphabet : LC :=
  "ABCDEFGHIJKLMNOPQRSTUVWXYZabcdefghijklmnopqrstuvwxyz0123456789+/".data

/-- Character for a sextet value. -/
def b64chr (n : Nat) : Char := b64Alphabet.getD n 'A'

/-- Sextet value of an alphabet character (alphabet position). -/
def b64val (c : Char) : Nat := b64Alphabet.indexOf c

/-- Base64 encoding of a byte list, three bytes to four characters,
with '=' padding, as buf.toString(base64) produces. -/
def encodeB64 : List Nat → LC
  | a :: b :: c :: rest =>
    b64chr (a / 4) :: b64chr (a % 4 * 16 + b / 16) ::
    b64chr (b % 16 * 4 + c / 64) :: b64chr (c % 64) :: encodeB64 rest
  | [a, b] => [b64chr (a / 4), b64chr (a % 4 * 16 + b / 16), b64chr (b % 16 * 4), '=']
  | [a] => [b64chr (a / 4), b64chr (a % 4 * 16), '=', '=']
  | [] => []

/-- Base64 decoding of a character list, four characters to up to three
bytes, honouring '=' padding, as Buffer.from(s, base64) does. -/
def decodeB64 : LC → List Nat
  | c1 :: c2 :: c3 :: c4 :: rest =>
    if c3 = '=' then
      [b64val c1 * 4 + b64val c2 / 16]
    else if c4 = '=' then
      [b64val c1 * 4 + b64val c2 / 16, b64val c2 % 16 * 16 + b64val c3 / 4]
    else
      (b64val c1 * 4 + b64val c2 / 16) :: (b64val c2 % 16 * 16 + b64val c3 / 4) ::
      (b64val c3 % 4 * 64 + b64val c4) :: decodeB64 rest
  | _ => []

theorem b64val_b64chr_fin : ∀ n : Fin 64, b64val (b64chr n.val) = n.val := by decide

theorem b64chr_ne_pad_fin : ∀ n : Fin 64, b64chr n.val ≠ '=' := by decide

theorem b64val_b64chr (n : Nat) (h : n < 64) : b64val (b64chr n) = n :=
  b64val_b64chr_fin ⟨n, h⟩

theorem b64chr_ne_pad (n : Nat) (h : n < 64) : b64chr n ≠ '=' :=
  b64chr_ne_pad_fin ⟨n, h⟩

theorem decodeB64_pad2 (c1 c2 : Char) :
    decodeB64 [c1, c2, '=', '='] = [b64val c1 * 4 + b64val c2 / 16] := by
  simp [decodeB64]

theorem decodeB64_pad1 (c1 c2 c3 : Char) (h : c3 ≠ '=') :
    decodeB64 [c1, c2, c3, '='] =
      [b64val c1 * 4 + b64val c2 / 16, b64val c2 % 16 * 16 + b64val c3 / 4] := by
  simp [decodeB64, h]

theorem decodeB64_full (c1 c2 c3 c4 : Char) (rest : LC) (h3 : c3 ≠ '=') (h4 : c4 ≠ '=') :
    decodeB64 (c1 :: c2 :: c3 :: c4 :: rest) =
      (b64val c1 * 4 + b64val c2 / 16) :: (b64val c2 % 16 * 16 + b64val c3 / 4) ::
      (b64val c3 % 4 * 64 + b64val c4) :: decodeB64 rest := by
  simp [decodeB64, h3, h4]

theorem decodeB64_encodeB64 :
    ∀ bs : List Nat, (∀ x ∈ bs, x < 256) → decodeB64 (encodeB64 bs) = bs
  | [], _ => rfl
  | [a], h => by
    have ha : a < 256 := h a (by simp)
    show decodeB64 [b64chr (a / 4), b64chr (a % 4 * 16), '=', '='] = [a]
    rw [decodeB64_pad2, b64val_b64chr _ (by omega), b64val_b64chr _ (by omega)]
    simp only [List.cons.injEq, and_true]
    omega
  | [a, b], h => by
    have ha : a < 256 := h a (by simp)
    have hb : b < 256 := h b (by simp)
    show decodeB64 [b64chr (a / 4), b64chr (a % 4 * 16 + b / 16),
      b64chr (b % 16 * 4), '='] = [a, b]
    rw [decodeB64_pad1 _ _ _ (b64chr_ne_pad _ (by omega)),
      b64val_b64chr _ (by omega), b64val_b64chr _ (by omega), b64val_b64chr _ (by omega)]
    simp only [List.cons.injEq, and_true]
    omega
  | a :: b :: c :: rest, h => by
    have ha : a < 256 := h a (by simp)
    have hb : b < 256 := h b (by simp)
    have hc : c < 256 := h c (by simp)
    have ih := decodeB64_encodeB64 rest (fun x hx => h x (by simp [hx]))
    show decodeB64 (b64chr (a / 4) :: b64chr (a % 4 * 16 + b / 16) ::
      b64chr (b % 16 * 4 + c / 64) :: b64chr (c % 64) :: encodeB64 rest) = a :: b :: c :: rest
    rw [decodeB64_full _ _ _ _ _ (b64chr_ne_pad _ (by omega)) (b64chr_ne_pad _ (by omega)),
      b64val_b64chr _ (by omega), b64val_b64chr _ (by omega), b64val_b64chr _ (by omega),
      b64val_b64chr _ (by omega), ih]
    simp only [List.cons.injEq, and_true]
    omega

/-! ## Character-list string operations -/

/-- The text extension ".txt". -/
def txtExt : LC := ['.', 't', 'x', 't']

/-- Model of JavaScript s.startsWith(pre). -/
def strStartsWith (s pre : LC) : Bool := pre.isPrefixOf s

/-- Model of JavaScript s.endsWith(suf). -/
def strEndsWith (s suf : LC) : Bool := suf.isSuffixOf s

/-- Model of JavaScript s.trim(). -/
def trimList (s : LC) : LC :=
  ((s.dropWhile Char.isWhitespace).reverse.dropWhile Char.isWhitespace).reverse

/-- Split a character list on a separator character, as JavaScript
s.split(sep) does (the result is never empty). -/
def splitOnChar (sep : Char) : LC → List LC
  | [] => [[]]
  | c :: cs =>
    match splitOnChar sep cs with
    | [] => [[]]
    | g :: gs => if c = sep then [] :: g :: gs else (c :: g) :: gs

/-- Model of JavaScript s.replace(".txt", "") — removes the first
occurrence of ".txt" only. -/
def replaceFirstTxt : LC → LC
  | [] => []
  | c :: cs => if txtExt.isPrefixOf (c :: cs) then cs.drop 3 else c :: replaceFirstTxt cs

/-- Model of path.basename(f, ".txt") for names without path separators:
strips a trailing ".txt" when present. -/
def stripTxtSuffix (f : LC) : LC :=
  if txtExt.isSuffixOf f then f.take (f.length - 4) else f

/-- Extension of a filename, without the dot and lowercased: model of
path.extname(f).toLowerCase().substring(1). -/
def extOfFilename (f : LC) : LC :=
  let parts := splitOnChar '.' f
  if 2 ≤ parts.length then (parts.getLastD []).map Char.toLower else []

/-- Strict lexicographic character-list order (the order underlying
localeCompare on the ASCII timestamp strings used here). -/
def lexLt : LC → LC → Bool
  | [], [] => false
  | [], _ :: _ => true
  | _ :: _, [] => false
  | a :: as, b :: bs => if a < b then true else if a = b then lexLt as bs else false

/-- Reflexive lexicographic character-list order. -/
def lexLe : LC → LC → Bool
  | [], _ => true
  | _ :: _, [] => false
  | a :: as, b :: bs => if a < b then true else if a = b then lexLe as bs else false

theorem lexLt_irrefl : ∀ a : LC, lexLt a a = false
  | [] => rfl
  | c :: cs => by simp [lexLt, lexLt_irrefl cs]

theorem lexLe_refl : ∀ a : LC, lexLe a a = true
  | [] => rfl
  | c :: cs => by simp [lexLe, lexLe_refl cs]

theorem lexLe_iff : ∀ a b : LC, lexLe a b = true ↔ (lexLt a b = true ∨ a = b)
  | [], [] => by simp [lexLe, lexLt]
  | [], _ :: _ => by simp [lexLe, lexLt]
  | _ :: _, [] => by simp [lexLe, lexLt]
  | a :: as, b :: bs => by
    by_cases hlt : a < b
    · simp [lexLe, lexLt, hlt]
    · by_cases heq : a = b
      · subst heq
        simp [lexLe, lexLt, hlt, lexLe_iff as bs]
      · simp [lexLe, lexLt, hlt, heq]

theorem lexLt_trans : ∀ a b c : LC, lexLt a b = true → lexLt b c = true → lexLt a c = true
  | [], _ :: _, _ :: _, _, _ => rfl
  | a :: as, b :: bs, c :: cs, h1, h2 => by
    simp only [lexLt] at h1 h2 ⊢
    by_cases h1lt : a < b
    · by_cases h2lt : b < c
      · simp [lt_trans h1lt h2lt]
      · by_cases h2eq : b = c
        · subst h2eq; simp [h1lt]
        · simp [h2lt, h2eq] at h2
    · by_cases h1eq : a = b
      · subst h1eq
        by_cases h2lt : a < c
        · simp [h2lt]
        · by_cases h2eq : a = c
          · subst h2eq
            simp only [if_neg h1lt, if_pos rfl] at h1 h2 ⊢
            exact lexLt_trans as bs cs h1 h2
          · simp [h2lt, h2eq] at h2
      · simp [h1lt, h1eq] at h1

theorem lexLt_trichotomy : ∀ a b : LC, lexLt a b = true ∨ a = b ∨ lexLt b a = true
  | [], [] => Or.inr (Or.inl rfl)
  | [], _ :: _ => Or.inl rfl
  | _ :: _, [] => Or.inr (Or.inr rfl)
  | a :: as, b :: bs => by
    rcases lt_trichotomy a b with hab | hab | hab
    · exact Or.inl (by simp [lexLt, hab])
    · subst hab
      rcases lexLt_trichotomy as bs with h | h | h
      · exact Or.inl (by simp [lexLt, h])
      · exact Or.inr (Or.inl (by rw [h]))
      · exact Or.inr (Or.inr (by simp [lexLt, h]))
    · exact Or.inr (Or.inr (by simp [lexLt, hab]))

theorem lexLt_asymm (a b : LC) (h : lexLt a b = true) : lexLt b a = false := by
  by_contra hc
  have hba : lexLt b a = true := by
    cases hh : lexLt b a
    · exact absurd hh hc
    · rfl
  have := lexLt_trans a b a h hba
  rw [lexLt_irrefl] at this
  exact Bool.false_ne_true this

theorem lexLt_ne (a b : LC) (h : lexLt a b = true) : a ≠ b := by
  intro he
  subst he
  rw [lexLt_irrefl] at h
  exact Bool.false_ne_true h

theorem lexLe_total (a b : LC) : lexLe a b = true ∨ lexLe b a = true := by
  rcases lexLt_trichotomy a b with h | h | h
  · exact Or.inl ((lexLe_iff a b).2 (Or.inl h))
  · exact Or.inl ((lexLe_iff a b).2 (Or.inr h))
  · exact Or.inr ((lexLe_iff b a).2 (Or.inl h))

theorem lexLe_trans (a b c : LC) (h1 : lexLe a b = true) (h2 : lexLe b c = true) :
    lexLe a c = true := by
  rcases (lexLe_iff a b).1 h1 with h1' | h1'
  · rcases (lexLe_iff b c).1 h2 with h2' | h2'
    · exact (lexLe_iff a c).2 (Or.inl (lexLt_trans a b c h1' h2'))
    · cases h2'; exact (lexLe_iff a b).2 (Or.inl h1')
  · subst h1'; exact h2

theorem not_lexLe_of_lexLt (a b : LC) (h : lexLt a b = true) : lexLe b a = false := by
  cases hh : lexLe b a
  · rfl
  · rcases (lexLe_iff b a).1 hh with h' | h'
    · have := lexLt_asymm a b h
      rw [h'] at this
      exact absurd this (by decide)
    · exact absurd h'.symm (lexLt_ne a b h)

/-! ## Timestamp codec (model of timestampName in the web server) -/

/-- The local wall-clock fields read off a Date by timestampName. -/
structure Instant where
  year : Nat
  month : Nat
  day : Nat
  hour : Nat
  minute : Nat
  second : Nat
deriving DecidableEq

/-- Decimal digit character. -/
def digitChar (n : Nat) : Char := Char.ofNat (48 + n)

/-- Two zero-padded decimal digits: String(n).padStart(2, 0) for n below 100. -/
def pad2 (n : Nat) : LC := [digitChar (n / 10), digitChar (n % 10)]

/-- Four decimal digits: String(y) for a four-digit year. -/
def pad4 (n : Nat) : LC :=
  [digitChar (n / 1000), digitChar (n / 100 % 10), digitChar (n / 10 % 10), digitChar (n % 10)]

/-- Model of timestampName: year-month-day-hour-minute-second, zero
padded, dash separated, from the local clock fields. -/
def timestampName (t : Instant) : LC :=
  pad4 t.year ++ '-' :: (pad2 t.month ++ '-' :: (pad2 t.day ++ '-' ::
    (pad2 t.hour ++ '-' :: (pad2 t.minute ++ '-' :: pad2 t.second))))

/-- Field ranges under which the model matches Date getters: four-digit
years and calendar-valid month, day, hour, minute, second. -/
def validInstant (t : Instant) : Prop :=
  1000 ≤ t.year ∧ t.year ≤ 9999 ∧ 1 ≤ t.month ∧ t.month ≤ 12 ∧
  1 ≤ t.day ∧ t.day ≤ 31 ∧ t.hour ≤ 23 ∧ t.minute ≤ 59 ∧ t.second ≤ 59

/-- Chronological order on clock readings: lexicographic on the fields. -/
def instantLt (t1 t2 : Instant) : Prop :=
  t1.year < t2.year ∨ (t1.year = t2.year ∧
    (t1.month < t2.month ∨ (t1.month = t2.month ∧
      (t1.day < t2.day ∨ (t1.day = t2.day ∧
        (t1.hour < t2.hour ∨ (t1.hour = t2.hour ∧
          (t1.minute < t2.minute ∨ (t1.minute = t2.minute ∧
            t1.second < t2.second)))))))))

instance : DecidablePred validInstant := fun t => by unfold validInstant; infer_instance

instance (t1 t2 : Instant) : Decidable (instantLt t1 t2) := by unfold instantLt; infer_instance

theorem digitChar_lt_fin : ∀ a b : Fin 10, (digitChar a.val < digitChar b.val ↔ a.val < b.val) := by
  decide

theorem digitChar_inj_fin : ∀ a b : Fin 10, (digitChar a.val = digitChar b.val ↔ a.val = b.val) := by
  decide

theorem digitChar_lt (a b : Nat) (ha : a < 10) (hb : b < 10) :
    digitChar a < digitChar b ↔ a < b :=
  digitChar_lt_fin ⟨a, ha⟩ ⟨b, hb⟩

theorem digitChar_inj (a b : Nat) (ha : a < 10) (hb : b < 10) :
    digitChar a = digitChar b ↔ a = b :=
  digitChar_inj_fin ⟨a, ha⟩ ⟨b, hb⟩

theorem pad2_lexLt (m n : Nat) (hm : m ≤ 99) (hn : n ≤ 99) :
    (lexLt (pad2 m) (pad2 n) = true) ↔ m < n := by
  have e1 := digitChar_lt (m / 10) (n / 10) (by omega) (by omega)
  have e2 := digitChar_inj (m / 10) (n / 10) (by omega) (by omega)
  have e3 := digitChar_lt (m % 10) (n % 10) (by omega) (by omega)
  have e4 := digitChar_inj (m % 10) (n % 10) (by omega) (by omega)
  simp only [pad2, lexLt, e1, e2, e3, e4]
  split_ifs <;> simp <;> omega

theorem pad2_inj (m n : Nat) (hm : m ≤ 99) (hn : n ≤ 99) :
    pad2 m = pad2 n ↔ m = n := by
  have e2 := digitChar_inj (m / 10) (n / 10) (by omega) (by omega)
  have e4 := digitChar_inj (m % 10) (n % 10) (by omega) (by omega)
  simp only [pad2, List.cons.injEq, and_true, e2, e4]
  omega

theorem pad4_lexLt (m n : Nat) (hm : m ≤ 9999) (hn : n ≤ 9999) :
    (lexLt (pad4 m) (pad4 n) = true) ↔ m < n := by
  have e1 := digitChar_lt (m / 1000) (n / 1000) (by omega) (by omega)
  have e2 := digitChar_inj (m / 1000) (n / 1000) (by omega) (by omega)
  have e3 := digitChar_lt (m / 100 % 10) (n / 100 % 10) (by omega) (by omega)
  have e4 := digitChar_inj (m / 100 % 10) (n / 100 % 10) (by omega) (by omega)
  have e5 := digitChar_lt (m / 10 % 10) (n / 10 % 10) (by omega) (by omega)
  have e6 := digitChar_inj (m / 10 % 10) (n / 10 % 10) (by omega) (by omega)
  have e7 := digitChar_lt (m % 10) (n % 10) (by omega) (by omega)
  have e8 := digitChar_inj (m % 10) (n % 10) (by omega) (by omega)
  simp only [pad4, lexLt, e1, e2, e3, e4, e5, e6, e7, e8]
  split_ifs <;> simp <;> omega

theorem pad4_inj (m n : Nat) (hm : m ≤ 9999) (hn : n ≤ 9999) :
    pad4 m = pad4 n ↔ m = n := by
  have e2 := digitChar_inj (m / 1000) (n / 1000) (by omega) (by omega)
  have e4 := digitChar_inj (m / 100 % 10) (n / 100 % 10) (by omega) (by omega)
  have e6 := digitChar_inj (m / 10 % 10) (n / 10 % 10) (by omega) (by omega)
  have e8 := digitChar_inj (m % 10) (n % 10) (by omega) (by omega)
  simp only [pad4, List.cons.injEq, and_true, e2, e4, e6, e8]
  omega

theorem lexLt_append_eqlen :
    ∀ l₁ l₂ r₁ r₂ : LC, l₁.length = l₂.length →
      ((lexLt (l₁ ++ r₁) (l₂ ++ r₂) = true) ↔
        (lexLt l₁ l₂ = true ∨ (l₁ = l₂ ∧ lexLt r₁ r₂ = true)))
  | [], [], r₁, r₂, _ => by simp [lexLt]
  | [], _ :: _, _, _, h => by simp at h
  | _ :: _, [], _, _, h => by simp at h
  | a :: as, b :: bs, r₁, r₂, h => by
    have h' : as.length = bs.length := by simpa using h
    by_cases hab : a < b
    · simp [lexLt, hab]
    · by_cases heq : a = b
      · subst heq
        simp [lexLt, hab, lexLt_append_eqlen as bs r₁ r₂ h']
      · simp [lexLt, hab, heq]

theorem lexLt_cons_same (c : Char) (r₁ r₂ : LC) :
    lexLt (c :: r₁) (c :: r₂) = lexLt r₁ r₂ := by
  simp [lexLt]

/-- Splitting a timestamp comparison into the year segment and the rest. -/
theorem lexLt_pad4_seg (y₁ y₂ : Nat) (r₁ r₂ : LC) (h1 : y₁ ≤ 9999) (h2 : y₂ ≤ 9999) :
    ((lexLt (pad4 y₁ ++ '-' :: r₁) (pad4 y₂ ++ '-' :: r₂)) = true ↔
      (y₁ < y₂ ∨ (y₁ = y₂ ∧ lexLt r₁ r₂ = true))) := by
  rw [lexLt_append_eqlen (pad4 y₁) (pad4 y₂) _ _ rfl]
  rw [pad4_lexLt y₁ y₂ h1 h2, pad4_inj y₁ y₂ h1 h2, lexLt_cons_same]

/-- Splitting a timestamp comparison into a two-digit segment and the rest. -/
theorem lexLt_pad2_seg (m₁ m₂ : Nat) (r₁ r₂ : LC) (h1 : m₁ ≤ 99) (h2 : m₂ ≤ 99) :
    ((lexLt (pad2 m₁ ++ '-' :: r₁) (pad2 m₂ ++ '-' :: r₂)) = true ↔
      (m₁ < m₂ ∨ (m₁ = m₂ ∧ lexLt r₁ r₂ = true))) := by
  rw [lexLt_append_eqlen (pad2 m₁) (pad2 m₂) _ _ rfl]
  rw [pad2_lexLt m₁ m₂ h1 h2, pad2_inj m₁ m₂ h1 h2, lexLt_cons_same]

/-- Encoding is strictly monotone: string order matches field order. -/
theorem timestampName_lt_iff (t1 t2 : Instant) (h1 : validInstant t1) (h2 : validInstant t2) :
    (lexLt (timestampName t1) (timestampName t2) = true) ↔ instantLt t1 t2 := by
  obtain ⟨ha1, ha2, ha3, ha4, ha5, ha6, ha7, ha8, ha9⟩ := h1
  obtain ⟨hb1, hb2, hb3, hb4, hb5, hb6, hb7, hb8, hb9⟩ := h2
  unfold timestampName instantLt
  rw [lexLt_pad4_seg _ _ _ _ (by omega) (by omega),
    lexLt_pad2_seg _ _ _ _ (by omega) (by omega),
    lexLt_pad2_seg _ _ _ _ (by omega) (by omega),
    lexLt_pad2_seg _ _ _ _ (by omega) (by omega),
    lexLt_pad2_seg _ _ _ _ (by omega) (by omega),
    pad2_lexLt _ _ (by omega) (by omega)]

/-- Encoding is injective on valid field values. -/
theorem timestampName_inj (t1 t2 : Instant) (h1 : validInstant t1) (h2 : validInstant t2)
    (he : timestampName t1 = timestampName t2) : t1 = t2 := by
  by_contra hne
  have htri : instantLt t1 t2 ∨ instantLt t2 t1 := by
    cases t1
    cases t2
    simp only [Instant.mk.injEq] at hne
    simp only [instantLt]
    omega
  rcases htri with h | h
  · have hx := (timestampName_lt_iff t1 t2 h1 h2).2 h
    rw [he, lexLt_irrefl] at hx
    exact absurd hx (by decide)
  · have hx := (timestampName_lt_iff t2 t1 h2 h1).2 h
    rw [he, lexLt_irrefl] at hx
    exact absurd hx (by decide)

/-! ## File-system model -/

/-- I/O failure kinds distinguished by the spec: directory absence
versus other read failures. -/
inductive IOErr where
  | enoent
  | eacces
  | eio
deriving DecidableEq

/-- Content of a stored file: binary buffer or utf8 text. -/
inductive FileData where
  | bytes (bs : List Nat)
  | text (s : LC)
deriving DecidableEq

/-- UTF-8 encoding of one character. -/
def utf8Char (c : Char) : List Nat :=
  let n := c.toNat
  if n < 128 then [n]
  else if n < 2048 then [192 + n / 64, 128 + n % 64]
  else if n < 65536 then [224 + n / 4096, 128 + n / 64 % 64, 128 + n % 64]
  else [240 + n / 262144, 128 + n / 4096 % 64, 128 + n / 64 % 64, 128 + n % 64]

/-- UTF-8 encoding of a string (what readFile of a text file yields as bytes). -/
def utf8Bytes (s : LC) : List Nat := s.flatMap utf8Char

/-- A directory: file names with contents, in listing order. -/
abbrev Dir := List (LC × FileData)

/-- Raw bytes of a file's content (readFile with no encoding). -/
def FileData.asBytes : FileData → List Nat
  | .bytes bs => bs
  | .text s => utf8Bytes s

/-! ## FileService (mcp server) -/

/-- Sort key of a text file: the filename with the first ".txt"
occurrence removed (the timestamp in well-formed stores). -/
def fileLe (a b : LC) : Prop := lexLe (replaceFirstTxt a) (replaceFirstTxt b) = true

instance : DecidableRel fileLe := fun a b => by unfold fileLe; infer_instance

instance : IsTotal LC fileLe :=
  ⟨fun a b => lexLe_total (replaceFirstTxt a) (replaceFirstTxt b)⟩

instance : IsTrans LC fileLe :=
  ⟨fun a b c => lexLe_trans (replaceFirstTxt a) (replaceFirstTxt b) (replaceFirstTxt c)⟩

/-- The .txt entries of a listing, sorted ascending by timestamp key
(model of the filter plus localeCompare sort in readTextFilesFromDir;
the V8 sort is stable, as insertion sort is). -/
def sortTextFiles (files : List LC) : List LC :=
  List.insertionSort fileLe (files.filter (fun f => strEndsWith f txtExt))

/-- Reading every file of a list, failing on the first read error
(model of Promise.all over readFile). -/
def readAll (content : LC → Except IOErr LC) : List LC → Except IOErr (List (LC × LC))
  | [] => .ok []
  | f :: fs =>
    match content f, readAll content fs with
    | .ok c, .ok rest => .ok ((f, c) :: rest)
    | .error e, _ => .error e
    | .ok _, .error e => .error e

/-- Model of readTextFilesFromDir: list the directory, keep .txt files,
sort by timestamp key, read each; any error anywhere is caught and
yields the empty list. -/
def readTextFilesFromDir (listing : Except IOErr (List LC))
    (content : LC → Except IOErr LC) : List (LC × LC) :=
  match listing with
  | .error _ => []
  | .ok files =>
    match readAll content (sortTextFiles files) with
    | .ok l => l
    | .error _ => []

/-- The caller-visible result of getCorrespondingImage. -/
structure ImageResult where
  filepath : LC
  base64 : LC
  mediaType : LC
deriving DecidableEq

/-- Media type from a lowercased extension without dot. -/
def extToMime (e : LC) : LC :=
  if e = "jpg".data ∨ e = "jpeg".data then "image/jpeg".data
  else if e = "png".data then "image/png".data
  else "image/".data ++ e

/-- Model of getCorrespondingImage: strip ".txt" from the given text
filename, return the first directory entry whose name starts with that
base name and does not end in ".txt", with base64 bytes and the media
type derived from its extension. -/
def getCorrespondingImage (dir : Dir) (textFilename : LC) : Option ImageResult :=
  match dir.find?
      (fun e => strStartsWith e.1 (stripTxtSuffix textFilename) && !strEndsWith e.1 txtExt) with
  | none => none
  | some e => some ⟨e.1, encodeB64 e.2.asBytes, extToMime (extOfFilename e.1)⟩

/-! ## Context assembly (mcp server) -/

/-- Opening tag of one transcript block. -/
def transcriptTag (ts : LC) : LC := "<transcript timestamp=\"".data ++ ts ++ "\">".data

/-- Opening tag of one image-description block. -/
def imageDescTag (ts : LC) : LC := "<image_description timestamp=\"".data ++ ts ++ "\">".data

/-- The content line pushed between an opening and closing block tag. -/
def contentBody (c : LC) : LC := '\n' :: (c ++ ['\n'])

/-- The transcript section of the context part list (empty group omitted). -/
def transcriptBlocks (files : List (LC × LC)) : List LC :=
  if files.isEmpty then []
  else "<transcripts>".data ::
    (files.flatMap fun fc =>
      [transcriptTag (replaceFirstTxt fc.1), contentBody fc.2, "</transcript>".data]) ++
    ["</transcripts>".data]

/-- The image-description section of the context part list. -/
def imageDescBlocks (files : List (LC × LC)) : List LC :=
  if files.isEmpty then []
  else "<image_descriptions>".data ::
    (files.flatMap fun fc =>
      [imageDescTag (replaceFirstTxt fc.1), contentBody fc.2, "</image_description>".data]) ++
    ["</image_descriptions>".data]

/-- The assembled context as its ordered part list (the output string is
these parts joined with newlines, which preserves their order). -/
def buildContextParts (tFiles iFiles : List (LC × LC)) : List LC :=
  transcriptBlocks tFiles ++ imageDescBlocks iFiles

/-- Context part list straight from the two directory listings. -/
def assembleContextParts (tListing iListing : Except IOErr (List LC))
    (tContent iContent : LC → Except IOErr LC) : List LC :=
  buildContextParts (readTextFilesFromDir tListing tContent)
    (readTextFilesFromDir iListing iContent)

/-- The joined context string. -/
def fullContext (parts : List LC) : LC := (List.intercalate ['\n'] parts)

/-! ## Response parsing (model of the relevant_image regex) -/

/-- Lowercase pattern characters matched case-insensitively against input. -/
def ciStarts : LC → LC → Bool
  | [], _ => true
  | _ :: _, [] => false
  | p :: ps, c :: cs => if c.toLower = p then ciStarts ps cs else false

/-- JavaScript line terminators, which the dot of the regex never matches. -/
def isLineTerm (c : Char) : Bool :=
  c = '\n' || c = '\r' || c = Char.ofNat 8232 || c = Char.ofNat 8233

def openTagL : LC := "<relevant_image>".data

def closeTagL : LC := "</relevant_image>".data

/-- Lazy payload scan: the shortest run of non-line-terminator characters
followed by the closing tag; returns the payload and the text after the
closing tag. -/
def scanPayload : LC → Option (LC × LC)
  | [] => none
  | c :: cs =>
    if ciStarts closeTagL (c :: cs) then some ([], (c :: cs).drop 17)
    else if isLineTerm c then none
    else (scanPayload cs).map (fun pr => (c :: pr.1, pr.2))

/-- Leftmost match of the citation-marker regex: the text before the
match, the raw payload, and the text after the match. -/
def findRelImage : LC → Option (LC × LC × LC)
  | [] => none
  | c :: cs =>
    if ciStarts openTagL (c :: cs) then
      match scanPayload ((c :: cs).drop 16) with
      | some pr => some ([], pr.1, pr.2)
      | none => (findRelImage cs).map (fun tr => (c :: tr.1, tr.2.1, tr.2.2))
    else (findRelImage cs).map (fun tr => (c :: tr.1, tr.2.1, tr.2.2))

/-- Model of the response-processing step: extract the cited timestamp
from the marker (if any), strip the marker, trim; a missing content
block falls back to the fixed answer text. -/
def processResponse (contentBlock : Option LC) : LC × Option LC :=
  match contentBlock with
  | none => ("No answer provided.".data, none)
  | some text =>
    match findRelImage text with
    | some tr => (trimList (tr.1 ++ tr.2.2), some (trimList tr.2.1))
    | none => (trimList text, none)

/-! ## Response composition (mcp server) -/

/-- One typed part of the caller-visible response. -/
inductive Part where
  | image (data : LC) (mimeType : LC) (alt : LC)
  | text (content : LC)
deriving DecidableEq

def altText : LC := "Relevant image for your query".data

/-- Model of the response builder: an image part first when a truthy
cited timestamp resolves to a stored image, then always the text part. -/
def buildResponse (dir : Dir) (answer : LC) (relevantImageTimestamp : Option LC) : List Part :=
  let imgPart : List Part :=
    match relevantImageTimestamp with
    | none => []
    | some ts =>
      if ts.isEmpty then []
      else
        match getCorrespondingImage dir (ts ++ txtExt) with
        | some img => [Part.image img.base64 img.mediaType altText]
        | none => []
  imgPart ++ [Part.text answer]

/-- Parse-then-compose half of a query, from the upstream content block. -/
def runQueryTail (contentBlock : Option LC) (imagesDir : Dir) : Option LC × List Part :=
  let pr := processResponse contentBlock
  (pr.2, buildResponse imagesDir pr.1 pr.2)

/-! ## Web server: ingestion handlers -/

/-- The decoded JSON body of a /media request; a field is some only
when present with a string value. -/
structure MediaBody where
  transcript : Option LC
  image : Option LC
  mediaType : Option LC

/-- HTTP outcome of a handler. -/
inductive HttpResponse where
  | ok (info : LC)
  | badRequest (error : LC)
  | serverError (error : LC)
deriving DecidableEq

/-- Outcome of the upstream describe-image fetch. -/
inductive FetchOutcome where
  | success (blocks : List (LC × LC))
  | httpError (status : Nat) (body : LC)

/-- Model of describeImageWithAnthropic: fail fast without a key,
surface a non-success status, otherwise take the first text block. -/
def describeImageWithAnthropic (key : Option LC) (outcome : FetchOutcome) : Except LC LC :=
  match key with
  | none => .error "Anthropic API key missing (set ANTHROPIC_API_KEY)".data
  | some _ =>
    match outcome with
    | .httpError status body =>
      .error ("Anthropic API error: ".data ++ Nat.toDigits 10 status ++ " — ".data ++ body)
    | .success blocks =>
      .ok (match blocks.find? (fun b => b.1 = "text".data) with
        | some b => b.2
        | none => "No description returned.".data)

/-- Extension taken from a media type: mediaType.split(slash)[1]. -/
def extFromMediaType (mt : LC) : LC := (splitOnChar '/' mt).getD 1 []

/-- Model of handleTranscriptUpload: write the body's transcript string
to a fresh timestamp-named .txt file, respond 200. -/
def handleTranscriptUpload (now : Instant) (t : LC) (tdir : List (LC × LC)) :
    HttpResponse × List (LC × LC) :=
  let filename := timestampName now ++ txtExt
  (.ok filename, tdir ++ [(filename, t)])

/-- Model of handleImageUpload: write the decoded image bytes first,
then request a description and write it beside the image; a describe
failure is thrown after the image write (Except.error). -/
def handleImageUpload (now : Instant) (img : LC) (mediaType : Option LC)
    (idir : Dir) (key : Option LC) (outcome : FetchOutcome) :
    Except LC HttpResponse × Dir :=
  let mt := mediaType.getD "image/png".data
  let baseName := timestampName now
  let imgName := baseName ++ '.' :: extFromMediaType mt
  let txtName := baseName ++ txtExt
  let idir1 := idir ++ [(imgName, .bytes (decodeB64 img))]
  match describeImageWithAnthropic key outcome with
  | .error msg => (.error msg, idir1)
  | .ok desc => (.ok (.ok imgName), idir1 ++ [(txtName, .text desc)])

/-- Model of handleMediaRequest: dispatch on which string field is
present; a thrown error becomes a 500 response; a body with neither
field is a 400 response. -/
def handleMediaRequest (now : Instant) (body : MediaBody) (key : Option LC)
    (outcome : FetchOutcome) (tdir : List (LC × LC)) (idir : Dir) :
    HttpResponse × List (LC × LC) × Dir :=
  match body.transcript with
  | some t =>
    let r := handleTranscriptUpload now t tdir
    (r.1, r.2, idir)
  | none =>
    match body.image with
    | some img =>
      match handleImageUpload now img body.mediaType idir key outcome with
      | (.ok resp, idir1) => (resp, tdir, idir1)
      | (.error msg, idir1) => (.serverError msg, tdir, idir1)
    | none =>
      (.badRequest "Request must include a \"transcript\" or \"image\" field.".data, tdir, idir)

/-! ## Helper lemmas -/

theorem take_len_append {α : Type} : ∀ l₁ l₂ : List α, (l₁ ++ l₂).take l₁.length = l₁
  | [], _ => rfl
  | a :: as, l₂ => by simp [take_len_append as l₂]

theorem isPrefixOf_self_append : ∀ l r : LC, l.isPrefixOf (l ++ r) = true
  | [], _ => by simp [List.isPrefixOf]
  | c :: cs, r => by simp [List.isPrefixOf, isPrefixOf_self_append cs r]

theorem isPrefixOf_ne_first (p c : Char) (ps cs : LC) (h : c ≠ p) :
    (p :: ps).isPrefixOf (c :: cs) = false := by
  simp only [List.isPrefixOf, Bool.and_eq_false_iff]
  left
  simp [beq_iff_eq]
  intro he
  exact absurd he.symm h

theorem isSuffixOf_append_self (l₁ l₂ : LC) : l₂.isSuffixOf (l₁ ++ l₂) = true := by
  unfold List.isSuffixOf
  rw [List.reverse_append]
  exact isPrefixOf_self_append l₂.reverse l₁.reverse

theorem stripTxtSuffix_append (ts : LC) : stripTxtSuffix (ts ++ txtExt) = ts := by
  unfold stripTxtSuffix
  rw [if_pos (isSuffixOf_append_self ts txtExt)]
  have hl : (ts ++ txtExt).length - 4 = ts.length := by simp [txtExt]
  rw [hl, take_len_append]

theorem strStartsWith_append (ts r : LC) : strStartsWith (ts ++ r) ts = true :=
  isPrefixOf_self_append ts r

theorem replaceFirstTxt_append (t : LC) (h : '.' ∉ t) : replaceFirstTxt (t ++ txtExt) = t := by
  induction t with
  | nil => rfl
  | cons c cs ih =>
    have hc : c ≠ '.' := fun he => h (by simp [he])
    have hrest : '.' ∉ cs := fun hm => h (by simp [hm])
    show replaceFirstTxt (c :: (cs ++ txtExt)) = c :: cs
    unfold replaceFirstTxt
    rw [show txtExt = '.' :: ['t', 'x', 't'] from rfl, isPrefixOf_ne_first _ _ _ _ hc]
    simpa using ih hrest

theorem strEndsWith_dotext (ts e : LC) (hlen : e.length = 3) (hne : e ≠ ['t', 'x', 't']) :
    strEndsWith (ts ++ '.' :: e) txtExt = false := by
  match e, hlen with
  | [a, b, c], _ =>
    unfold strEndsWith List.isSuffixOf
    rw [List.reverse_append]
    show List.isPrefixOf ['t', 'x', 't', '.'] ([c, b, a, '.'] ++ ts.reverse) = false
    by_cases h1 : c = 't'
    · by_cases h2 : b = 'x'
      · by_cases h3 : a = 't'
        · exact absurd (by rw [h1, h2, h3]) hne
        · subst h1; subst h2
          simp only [List.isPrefixOf, List.cons_append, Bool.and_eq_false_imp]
          simp [beq_iff_eq]
          intro h
          exact absurd h.symm h3
      · subst h1
        simp only [List.isPrefixOf, List.cons_append]
        simp [beq_iff_eq]
        intro h
        exact absurd h.symm h2
    · simp only [List.isPrefixOf, List.cons_append]
      simp [beq_iff_eq]
      intro h
      exact absurd h.symm h1

theorem find?_append_of_none {α : Type} (p : α → Bool) :
    ∀ l₁ l₂ : List α, (∀ e ∈ l₁, p e = false) →
      List.find? p (l₁ ++ l₂) = List.find? p l₂
  | [], _, _ => rfl
  | a :: as, l₂, h => by
    have ha : p a = false := h a (by simp)
    simp only [List.cons_append, List.find?, ha]
    exact find?_append_of_none p as l₂ (fun e he => h e (by simp [he]))

theorem splitOnChar_ne_nil (sep : Char) : ∀ l : LC, splitOnChar sep l ≠ []
  | [] => by simp [splitOnChar]
  | c :: cs => by
    unfold splitOnChar
    match h : splitOnChar sep cs with
    | [] => exact absurd h (splitOnChar_ne_nil sep cs)
    | g :: gs =>
      by_cases hc : c = sep <;> simp [hc]

theorem splitOnChar_no_sep (sep : Char) : ∀ l : LC, sep ∉ l → splitOnChar sep l = [l]
  | [], _ => rfl
  | c :: cs, h => by
    have hc : c ≠ sep := fun he => h (by simp [he])
    have ih := splitOnChar_no_sep sep cs (fun hm => h (by simp [hm]))
    unfold splitOnChar
    rw [ih]
    simp [hc]

theorem splitOnChar_append (sep : Char) :
    ∀ l₁ l₂ : LC, splitOnChar sep (l₁ ++ sep :: l₂) =
      splitOnChar sep l₁ ++ splitOnChar sep l₂
  | [], l₂ => by
    have hne := splitOnChar_ne_nil sep l₂
    cases h : splitOnChar sep l₂ with
    | nil => exact absurd h hne
    | cons g gs => simp [splitOnChar, h]
  | c :: cs, l₂ => by
    have hne := splitOnChar_ne_nil sep cs
    have ih := splitOnChar_append sep cs l₂
    cases h : splitOnChar sep cs with
    | nil => exact absurd h hne
    | cons g gs =>
      by_cases hc : c = sep
      · simp [splitOnChar, h, hc, ih]
      · simp [splitOnChar, h, hc, ih]

theorem extOfFilename_append (ts e : LC) (h : '.' ∉ e) :
    extOfFilename (ts ++ '.' :: e) = e.map Char.toLower := by
  unfold extOfFilename
  rw [splitOnChar_append '.' ts e, splitOnChar_no_sep '.' e h]
  have hne := splitOnChar_ne_nil '.' ts
  have hlen : 2 ≤ (splitOnChar '.' ts ++ [e]).length := by
    cases hsp : splitOnChar '.' ts with
    | nil => exact absurd hsp hne
    | cons g gs => simp
  rw [if_pos hlen]
  simp

theorem readAll_ok (c : LC → LC) :
    ∀ l : List LC, readAll (fun f => Except.ok (c f)) l = Except.ok (l.map (fun f => (f, c f)))
  | [] => rfl
  | f :: fs => by simp [readAll, readAll_ok c fs]

/-- In a pairwise-ordered list, an element not reachable from another by
the order appears strictly after it: the ordered pair is a sublist. -/
theorem pair_sublist_of_pairwise {α : Type} {R : α → α → Prop} :
    ∀ l : List α, List.Pairwise R l → ∀ a b : α, a ∈ l → b ∈ l → ¬ R b a → a ≠ b →
      List.Sublist [a, b] l
  | [], _, a, _, ha, _, _, _ => absurd ha (by simp)
  | x :: xs, hp, a, b, ha, hb, hnR, hne => by
    rw [List.pairwise_cons] at hp
    by_cases hax : a = x
    · subst hax
      have hbx : b ∈ xs := by
        rcases List.mem_cons.1 hb with h | h
        · exact absurd h.symm hne
        · exact h
      exact List.Sublist.cons₂ a (List.singleton_sublist.2 hbx)
    · have hax' : a ∈ xs := by
        rcases List.mem_cons.1 ha with h | h
        · exact absurd h hax
        · exact h
      by_cases hbx : b = x
      · subst hbx
        exact absurd (hp.1 a hax') hnR
      · have hbx' : b ∈ xs := by
          rcases List.mem_cons.1 hb with h | h
          · exact absurd h hbx
          · exact h
        exact List.Sublist.cons x (pair_sublist_of_pairwise xs hp.2 a b hax' hbx' hnR hne)

theorem sublist_flatMap {α β : Type} (g : α → List β) {l₁ l₂ : List α}
    (h : List.Sublist l₁ l₂) : List.Sublist (l₁.flatMap g) (l₂.flatMap g) := by
  induction h with
  | slnil => exact List.Sublist.refl _
  | cons a h ih =>
    rw [List.flatMap_cons]
    exact ih.trans (List.sublist_append_right _ _)
  | cons₂ a h ih =>
    rw [List.flatMap_cons, List.flatMap_cons]
    exact ih.append_left _

/-! ## Ordering of assembled context blocks -/

theorem pair_sublist_sortTextFiles (t1 t2 : LC) (files : List LC)
    (h1 : '.' ∉ t1) (h2 : '.' ∉ t2) (hlt : lexLt t1 t2 = true)
    (hm1 : (t1 ++ txtExt) ∈ files) (hm2 : (t2 ++ txtExt) ∈ files) :
    List.Sublist [t1 ++ txtExt, t2 ++ txtExt] (sortTextFiles files) := by
  have hs : List.Pairwise fileLe (sortTextFiles files) :=
    List.sorted_insertionSort fileLe _
  have hne : t1 ≠ t2 := lexLt_ne t1 t2 hlt
  have hfne : t1 ++ txtExt ≠ t2 ++ txtExt := by
    intro he
    exact hne (List.append_cancel_right he)
  have hmem1 : (t1 ++ txtExt) ∈ sortTextFiles files := by
    unfold sortTextFiles
    rw [List.mem_insertionSort, List.mem_filter]
    exact ⟨hm1, isSuffixOf_append_self t1 txtExt⟩
  have hmem2 : (t2 ++ txtExt) ∈ sortTextFiles files := by
    unfold sortTextFiles
    rw [List.mem_insertionSort, List.mem_filter]
    exact ⟨hm2, isSuffixOf_append_self t2 txtExt⟩
  have hnR : ¬ fileLe (t2 ++ txtExt) (t1 ++ txtExt) := by
    unfold fileLe
    rw [replaceFirstTxt_append t2 h2, replaceFirstTxt_append t1 h1,
      not_lexLe_of_lexLt t1 t2 hlt]
    simp
  exact pair_sublist_of_pairwise _ hs _ _ hmem1 hmem2 hnR hfne

theorem tags_sublist_transcriptBlocks (e1 e2 : LC × LC) (files : List (LC × LC))
    (h : List.Sublist [e1, e2] files) :
    List.Sublist [transcriptTag (replaceFirstTxt e1.1), transcriptTag (replaceFirstTxt e2.1)]
      (transcriptBlocks files) := by
  have hne : files ≠ [] := by
    intro he
    subst he
    simpa using List.sublist_nil.1 h
  have hflat := sublist_flatMap
    (fun fc => [transcriptTag (replaceFirstTxt fc.1), contentBody fc.2, "</transcript>".data]) h
  simp only [List.flatMap_cons, List.flatMap_nil, List.append_nil] at hflat
  have htags : List.Sublist
      [transcriptTag (replaceFirstTxt e1.1), transcriptTag (replaceFirstTxt e2.1)]
      ([transcriptTag (replaceFirstTxt e1.1), contentBody e1.2, "</transcript>".data] ++
        [transcriptTag (replaceFirstTxt e2.1), contentBody e2.2, "</transcript>".data]) := by
    simp only [List.cons_append, List.nil_append]
    apply List.Sublist.cons₂
    apply List.Sublist.cons
    apply List.Sublist.cons
    apply List.Sublist.cons₂
    apply List.nil_sublist
  have hin := htags.trans hflat
  unfold transcriptBlocks
  rw [if_neg (by simpa using hne)]
  exact List.Sublist.cons _ (hin.trans (List.sublist_append_left _ _))

theorem tags_sublist_imageDescBlocks (e1 e2 : LC × LC) (files : List (LC × LC))
    (h : List.Sublist [e1, e2] files) :
    List.Sublist [imageDescTag (replaceFirstTxt e1.1), imageDescTag (replaceFirstTxt e2.1)]
      (imageDescBlocks files) := by
  have hne : files ≠ [] := by
    intro he
    subst he
    simpa using List.sublist_nil.1 h
  have hflat := sublist_flatMap
    (fun fc => [imageDescTag (replaceFirstTxt fc.1), contentBody fc.2,
      "</image_description>".data]) h
  simp only [List.flatMap_cons, List.flatMap_nil, List.append_nil] at hflat
  have htags : List.Sublist
      [imageDescTag (replaceFirstTxt e1.1), imageDescTag (replaceFirstTxt e2.1)]
      ([imageDescTag (replaceFirstTxt e1.1), contentBody e1.2, "</image_description>".data] ++
        [imageDescTag (replaceFirstTxt e2.1), contentBody e2.2,
          "</image_description>".data]) := by
    simp only [List.cons_append, List.nil_append]
    apply List.Sublist.cons₂
    apply List.Sublist.cons
    apply List.Sublist.cons
    apply List.Sublist.cons₂
    apply List.nil_sublist
  have hin := htags.trans hflat
  unfold imageDescBlocks
  rw [if_neg (by simpa using hne)]
  exact List.Sublist.cons _ (hin.trans (List.sublist_append_left _ _))

/-! ## Claim C1 -/

def tsEarly : LC := "2025-01-01-00-00-00".data

def tsLate : LC := "2025-01-02-00-00-00".data

def c1Parts : List LC :=
  assembleContextParts (Except.ok [tsLate ++ txtExt]) (Except.ok [tsEarly ++ txtExt])
    (fun _ => Except.ok ['A']) (fun _ => Except.ok ['B'])

/-- Claim C1 (counterexample): with a transcript stored at the later
timestamp and an image description stored at the earlier timestamp —
both valid codec outputs, earlier lexicographically below later — the
earlier artifact's block does not appear before the later artifact's
block in the assembled context: the transcript section precedes the
image-description section regardless of timestamps. -/
theorem claim_C1_counterexample :
    timestampName ⟨2025, 1, 1, 0, 0, 0⟩ = tsEarly ∧
    timestampName ⟨2025, 1, 2, 0, 0, 0⟩ = tsLate ∧
    lexLt tsEarly tsLate = true ∧
    imageDescTag tsEarly ∈ c1Parts ∧
    transcriptTag tsLate ∈ c1Parts ∧
    ¬ List.Sublist [imageDescTag tsEarly, transcriptTag tsLate] c1Parts := by
  decide

/-- Claim C1 (amended): for two artifacts of the same category stored at
valid timestamps t1 below t2, the block tagged t1 appears before the
block tagged t2 in the Context Assembler's output part sequence — the
transcript-category ordering needs only the transcript store and the
image-description-category ordering only the image store — while
across categories the output is category-major: every part of the
transcript section precedes every part of the image-description
section, regardless of timestamps. -/
theorem claim_C1 (t1 t2 : LC) (tfiles ifiles : List LC) (tc ic : LC → LC)
    (h1 : '.' ∉ t1) (h2 : '.' ∉ t2) (hlt : lexLt t1 t2 = true) :
    ((t1 ++ txtExt) ∈ tfiles → (t2 ++ txtExt) ∈ tfiles →
      List.Sublist [transcriptTag t1, transcriptTag t2]
        (assembleContextParts (Except.ok tfiles) (Except.ok ifiles)
          (fun f => Except.ok (tc f)) (fun f => Except.ok (ic f)))) ∧
    ((t1 ++ txtExt) ∈ ifiles → (t2 ++ txtExt) ∈ ifiles →
      List.Sublist [imageDescTag t1, imageDescTag t2]
        (assembleContextParts (Except.ok tfiles) (Except.ok ifiles)
          (fun f => Except.ok (tc f)) (fun f => Except.ok (ic f)))) ∧
    (∀ p q : LC,
      p ∈ transcriptBlocks (readTextFilesFromDir (Except.ok tfiles)
        (fun f => Except.ok (tc f))) →
      q ∈ imageDescBlocks (readTextFilesFromDir (Except.ok ifiles)
        (fun f => Except.ok (ic f))) →
      List.Sublist [p, q]
        (assembleContextParts (Except.ok tfiles) (Except.ok ifiles)
          (fun f => Except.ok (tc f)) (fun f => Except.ok (ic f)))) := by
  have hread_t : readTextFilesFromDir (Except.ok tfiles) (fun f => Except.ok (tc f)) =
      (sortTextFiles tfiles).map (fun f => (f, tc f)) := by
    simp [readTextFilesFromDir, readAll_ok]
  have hread_i : readTextFilesFromDir (Except.ok ifiles) (fun f => Except.ok (ic f)) =
      (sortTextFiles ifiles).map (fun f => (f, ic f)) := by
    simp [readTextFilesFromDir, readAll_ok]
  refine ⟨fun ht1 ht2 => ?_, fun hi1 hi2 => ?_, fun p q hp hq => ?_⟩
  · have hpair_t := (pair_sublist_sortTextFiles t1 t2 tfiles h1 h2 hlt ht1 ht2).map
      (fun f => (f, tc f))
    simp only [List.map_cons, List.map_nil] at hpair_t
    have htags := tags_sublist_transcriptBlocks _ _ _ hpair_t
    simp only [replaceFirstTxt_append t1 h1, replaceFirstTxt_append t2 h2] at htags
    unfold assembleContextParts buildContextParts
    rw [hread_t]
    exact htags.trans (List.sublist_append_left _ _)
  · have hpair_i := (pair_sublist_sortTextFiles t1 t2 ifiles h1 h2 hlt hi1 hi2).map
      (fun f => (f, ic f))
    simp only [List.map_cons, List.map_nil] at hpair_i
    have hitags := tags_sublist_imageDescBlocks _ _ _ hpair_i
    simp only [replaceFirstTxt_append t1 h1, replaceFirstTxt_append t2 h2] at hitags
    unfold assembleContextParts buildContextParts
    rw [hread_i]
    exact hitags.trans (List.sublist_append_right _ _)
  · unfold assembleContextParts buildContextParts
    exact List.Sublist.append (List.singleton_sublist.2 hp) (List.singleton_sublist.2 hq)

/-- Witness for C1: same-category ordering on a transcripts-only store
and on an images-only store, and the category-major clause at a
concrete pair of parts from a mixed store. -/
theorem claim_C1_witness :
    List.Sublist [transcriptTag tsEarly, transcriptTag tsLate]
      (assembleContextParts (Except.ok [tsLate ++ txtExt, tsEarly ++ txtExt])
        (Except.ok []) (fun _ => Except.ok ['A']) (fun _ => Except.ok ['B'])) ∧
    List.Sublist [imageDescTag tsEarly, imageDescTag tsLate]
      (assembleContextParts (Except.ok [])
        (Except.ok [tsEarly ++ txtExt, tsLate ++ txtExt])
        (fun _ => Except.ok ['A']) (fun _ => Except.ok ['B'])) ∧
    List.Sublist ["<transcripts>".data, imageDescTag tsEarly]
      (assembleContextParts (Except.ok [tsLate ++ txtExt])
        (Except.ok [tsEarly ++ txtExt])
        (fun _ => Except.ok ['A']) (fun _ => Except.ok ['B'])) :=
  ⟨(claim_C1 tsEarly tsLate [tsLate ++ txtExt, tsEarly ++ txtExt] []
      (fun _ => ['A']) (fun _ => ['B']) (by decide) (by decide) (by decide)).1
      (by decide) (by decide),
    (claim_C1 tsEarly tsLate [] [tsEarly ++ txtExt, tsLate ++ txtExt]
      (fun _ => ['A']) (fun _ => ['B']) (by decide) (by decide) (by decide)).2.1
      (by decide) (by decide),
    (claim_C1 tsEarly tsLate [tsLate ++ txtExt] [tsEarly ++ txtExt]
      (fun _ => ['A']) (fun _ => ['B']) (by decide) (by decide) (by decide)).2.2
      "<transcripts>".data (imageDescTag tsEarly) (by decide) (by decide)⟩

/-! ## Claim C3 -/

/-- Claim C3 (counterexample): a permission failure while listing — an
I/O failure other than directory absence — is not surfaced: the
function returns the empty sequence exactly as for a missing directory,
so no PersistenceError ever reaches the caller. -/
theorem claim_C3_counterexample :
    readTextFilesFromDir (Except.error IOErr.eacces) (fun _ => Except.ok []) = [] ∧
    IOErr.eacces ≠ IOErr.enoent :=
  ⟨rfl, by decide⟩

/-- Claim C3 (amended): listText never raises: every I/O failure during
listing or reading — directory absence or otherwise — is caught and
yields the empty sequence, and an empty directory also yields the
empty sequence. -/
theorem claim_C3 (e : IOErr) (content : LC → Except IOErr LC) (files : List LC) :
    readTextFilesFromDir (Except.error e) content = [] ∧
    readTextFilesFromDir (Except.ok []) content = [] ∧
    (readAll content (sortTextFiles files) = Except.error e →
      readTextFilesFromDir (Except.ok files) content = []) := by
  refine ⟨rfl, rfl, fun h => ?_⟩
  simp only [readTextFilesFromDir]
  rw [h]

/-- Witness for C3: a read failure inside an existing directory still
yields the empty sequence. -/
theorem claim_C3_witness :
    readTextFilesFromDir (Except.ok ["a.txt".data]) (fun _ => Except.error IOErr.eio) = [] :=
  (claim_C3 IOErr.eio (fun _ => Except.error IOErr.eio) ["a.txt".data]).2.2 rfl

/-! ## Claim C4 -/

def instant0 : Instant := ⟨2025, 5, 17, 2, 40, 24⟩

/-- Claim C4 (counterexample): a transcript field holding the empty
string — empty after trimming — is accepted: the handler answers 200
and writes the empty transcript file, with no error payload. -/
theorem claim_C4_counterexample :
    handleMediaRequest instant0 ⟨some [], none, none⟩ none (FetchOutcome.success []) [] [] =
      (HttpResponse.ok (timestampName instant0 ++ txtExt),
        [(timestampName instant0 ++ txtExt, [])], []) := by
  rfl

/-- Claim C4 (amended): transcript ingestion accepts the transcript
field whenever it is a string — including the empty or whitespace-only
string — writing it verbatim and answering 200; the error payload
naming the missing field is returned exactly when neither a transcript
string nor an image string is present. -/
theorem claim_C4 (now : Instant) (s : LC) (img mt : Option LC) (key : Option LC)
    (outcome : FetchOutcome) (tdir : List (LC × LC)) (idir : Dir) :
    handleMediaRequest now ⟨some s, img, mt⟩ key outcome tdir idir =
      (HttpResponse.ok (timestampName now ++ txtExt),
        tdir ++ [(timestampName now ++ txtExt, s)], idir) ∧
    handleMediaRequest now ⟨none, none, mt⟩ key outcome tdir idir =
      (HttpResponse.badRequest
        "Request must include a \"transcript\" or \"image\" field.".data, tdir, idir) :=
  ⟨rfl, rfl⟩

/-! ## Claim C2 -/

/-- Claim C2 (counterexample): a file whose name merely begins with the
timestamp but has a different base name is returned: querying
2025-01-01-00-00-00 returns 2025-01-01-00-00-00-extra.png, whose base
name is not the timestamp. -/
theorem claim_C2_counterexample :
    getCorrespondingImage [("2025-01-01-00-00-00-extra.png".data, FileData.bytes [7])]
        ("2025-01-01-00-00-00.txt".data) =
      some ⟨"2025-01-01-00-00-00-extra.png".data, encodeB64 [7], "image/png".data⟩ ∧
    (splitOnChar '.' "2025-01-01-00-00-00-extra.png".data).getD 0 [] ≠
      "2025-01-01-00-00-00".data := by
  decide

/-- Claim C2 (amended): findImageByTimestamp returns the first directory
entry whose name starts with the timestamp (prefix match, not exact
base-name match) and whose name does not end in the text extension, and
reports absence exactly when no entry matches that prefix test. -/
theorem claim_C2 (dir : Dir) (ts : LC) :
    ((∀ e ∈ dir, (strStartsWith e.1 ts && !strEndsWith e.1 txtExt) = false) →
      getCorrespondingImage dir (ts ++ txtExt) = none) ∧
    (∀ pre e post, dir = pre ++ e :: post →
      (∀ x ∈ pre, (strStartsWith x.1 ts && !strEndsWith x.1 txtExt) = false) →
      (strStartsWith e.1 ts && !strEndsWith e.1 txtExt) = true →
      getCorrespondingImage dir (ts ++ txtExt) =
        some ⟨e.1, encodeB64 e.2.asBytes, extToMime (extOfFilename e.1)⟩) := by
  constructor
  · intro habs
    unfold getCorrespondingImage
    rw [stripTxtSuffix_append]
    have hnone : dir.find? (fun e => strStartsWith e.1 ts && !strEndsWith e.1 txtExt) = none :=
      List.find?_eq_none.2 (fun x hx => by simp [habs x hx])
    rw [hnone]
  · intro pre e post hdir hpre hmatch
    subst hdir
    unfold getCorrespondingImage
    rw [stripTxtSuffix_append, find?_append_of_none _ pre _ hpre]
    simp [List.find?_cons, hmatch]

/-- Witness for C2: a text sibling is skipped and the first prefix
matching binary entry is returned; the empty directory reports absence. -/
theorem claim_C2_witness :
    getCorrespondingImage
        [(tsEarly ++ txtExt, FileData.text []),
          (tsEarly ++ '.' :: "png".data, FileData.bytes [5])] (tsEarly ++ txtExt) =
      some ⟨tsEarly ++ '.' :: "png".data, encodeB64 [5], "image/png".data⟩ ∧
    getCorrespondingImage [] (tsEarly ++ txtExt) = none := by
  constructor
  · have h := (claim_C2
      [(tsEarly ++ txtExt, FileData.text []), (tsEarly ++ '.' :: "png".data, FileData.bytes [5])]
      tsEarly).2 [(tsEarly ++ txtExt, FileData.text [])]
      (tsEarly ++ '.' :: "png".data, FileData.bytes [5]) [] rfl (by decide) (by decide)
    exact h.trans (by decide)
  · exact (claim_C2 [] tsEarly).1 (by simp)

/-! ## Claim C5 -/

/-- Claim C5: resolving a null citation returns the text-only response
for every store (no lookup can change it); a timestamp all of whose
prefix-matching files are text files resolves to absence; a first
matching entry named timestamp dot extension resolves to an image part
whose media type is derived from the lowercased extension; and the
extension mapping sends jpg and jpeg to image/jpeg, png to image/png,
and any other extension x to image/x. -/
theorem claim_C5 (dir : Dir) (answer ts : LC) :
    (buildResponse dir answer none = [Part.text answer]) ∧
    ((∀ e ∈ dir, strStartsWith e.1 ts = true → strEndsWith e.1 txtExt = true) →
      getCorrespondingImage dir (ts ++ txtExt) = none) ∧
    (∀ fname fd ext,
      dir.find? (fun e => strStartsWith e.1 ts && !strEndsWith e.1 txtExt) =
        some (fname, fd) →
      fname = ts ++ '.' :: ext → '.' ∉ ext →
      getCorrespondingImage dir (ts ++ txtExt) =
        some ⟨fname, encodeB64 fd.asBytes, extToMime (ext.map Char.toLower)⟩) ∧
    (extToMime "jpg".data = "image/jpeg".data ∧
      extToMime "jpeg".data = "image/jpeg".data ∧
      extToMime "png".data = "image/png".data ∧
      ∀ x : LC, x ≠ "jpg".data → x ≠ "jpeg".data → x ≠ "png".data →
        extToMime x = "image/".data ++ x) := by
  refine ⟨rfl, ?_, ?_, by decide, by decide, by decide, ?_⟩
  · intro habs
    unfold getCorrespondingImage
    rw [stripTxtSuffix_append]
    have hnone : dir.find? (fun e => strStartsWith e.1 ts && !strEndsWith e.1 txtExt) = none := by
      refine List.find?_eq_none.2 (fun x hx => ?_)
      intro hmatch
      rw [Bool.and_eq_true] at hmatch
      have hw := habs x hx hmatch.1
      rw [hw] at hmatch
      simp at hmatch
    rw [hnone]
  · intro fname fd ext hfind hname hdot
    unfold getCorrespondingImage
    rw [stripTxtSuffix_append, hfind, hname]
    simp [extOfFilename_append ts ext hdot]
  · intro x h1 h2 h3
    unfold extToMime
    rw [if_neg (by simp [h1, h2]), if_neg h3]

/-- Witness for C5: an unknown extension resolves to its image slash
extension media type, and an empty store resolves to absence. -/
theorem claim_C5_witness :
    getCorrespondingImage [(tsEarly ++ '.' :: "gif".data, FileData.bytes [1, 2, 3])]
        (tsEarly ++ txtExt) =
      some ⟨tsEarly ++ '.' :: "gif".data, encodeB64 [1, 2, 3], "image/gif".data⟩ ∧
    getCorrespondingImage [] (tsEarly ++ txtExt) = none := by
  constructor
  · have h := (claim_C5 [(tsEarly ++ '.' :: "gif".data, FileData.bytes [1, 2, 3])] [] tsEarly).2.2.1
      (tsEarly ++ '.' :: "gif".data) (FileData.bytes [1, 2, 3]) "gif".data (by decide) rfl
      (by decide)
    exact h.trans (by decide)
  · exact (claim_C5 [] [] tsEarly).2.1 (by simp)

/-! ## Claim C8 -/

/-- Claim C8: every composed response is zero or one image part followed
by exactly one text part; the text part is always present — also for
the empty answer string — and always last. -/
theorem claim_C8 (dir : Dir) (answer : LC) (ts : Option LC) :
    (buildResponse dir answer ts = [Part.text answer] ∨
      ∃ d m, buildResponse dir answer ts = [Part.image d m altText, Part.text answer]) ∧
    (buildResponse dir answer ts).getLast? = some (Part.text answer) := by
  have hmain : buildResponse dir answer ts = [Part.text answer] ∨
      ∃ d m, buildResponse dir answer ts = [Part.image d m altText, Part.text answer] := by
    cases ts with
    | none => exact Or.inl rfl
    | some t =>
      by_cases ht : t.isEmpty
      · exact Or.inl (by simp [buildResponse, ht])
      · cases hg : getCorrespondingImage dir (t ++ txtExt) with
        | none => exact Or.inl (by simp [buildResponse, ht, hg])
        | some img =>
          exact Or.inr ⟨img.base64, img.mediaType, by simp [buildResponse, ht, hg]⟩
  refine ⟨hmain, ?_⟩
  rcases hmain with h | ⟨d, m, h⟩ <;> rw [h] <;> rfl

/-! ## Claim C6 -/

/-- Claim C6: uploading any byte sequence as an image/png at a fresh
timestamp and then resolving that timestamp returns an image part whose
bytes decode to exactly the uploaded bytes and whose media type is
image/png. -/
theorem claim_C6 (now : Instant) (bs : List Nat) (tdir : List (LC × LC)) (idir : Dir)
    (k : LC) (blocks : List (LC × LC))
    (h256 : ∀ x ∈ bs, x < 256)
    (hfresh : ∀ e ∈ idir, strStartsWith e.1 (timestampName now) = false) :
    ∃ res : ImageResult,
      getCorrespondingImage
        ((handleMediaRequest now ⟨none, some (encodeB64 bs), some "image/png".data⟩
          (some k) (FetchOutcome.success blocks) tdir idir).2.2)
        (timestampName now ++ txtExt) = some res ∧
      decodeB64 res.base64 = bs ∧ res.mediaType = "image/png".data := by
  obtain ⟨d, hd⟩ : ∃ d, describeImageWithAnthropic (some k) (FetchOutcome.success blocks) =
      Except.ok d := ⟨_, rfl⟩
  have himg : handleImageUpload now (encodeB64 bs) (some "image/png".data) idir (some k)
      (FetchOutcome.success blocks) =
      (Except.ok (HttpResponse.ok (timestampName now ++ '.' :: ['p', 'n', 'g'])),
        idir ++ [(timestampName now ++ '.' :: ['p', 'n', 'g'], FileData.bytes bs),
          (timestampName now ++ txtExt, FileData.text d)]) := by
    unfold handleImageUpload
    rw [hd, decodeB64_encodeB64 bs h256]
    simp [List.append_assoc]
    decide
  have hdisp : handleMediaRequest now ⟨none, some (encodeB64 bs), some "image/png".data⟩
        (some k) (FetchOutcome.success blocks) tdir idir =
      match handleImageUpload now (encodeB64 bs) (some "image/png".data) idir (some k)
          (FetchOutcome.success blocks) with
      | (Except.ok resp, idir1) => (resp, tdir, idir1)
      | (Except.error msg, idir1) => (HttpResponse.serverError msg, tdir, idir1) := rfl
  have hdir2 : (handleMediaRequest now ⟨none, some (encodeB64 bs), some "image/png".data⟩
        (some k) (FetchOutcome.success blocks) tdir idir).2.2 =
      idir ++ [(timestampName now ++ '.' :: ['p', 'n', 'g'], FileData.bytes bs),
        (timestampName now ++ txtExt, FileData.text d)] := by
    rw [hdisp, himg]
  refine ⟨⟨timestampName now ++ '.' :: ['p', 'n', 'g'], encodeB64 bs, "image/png".data⟩,
    ?_, decodeB64_encodeB64 bs h256, rfl⟩
  rw [hdir2]
  unfold getCorrespondingImage
  rw [stripTxtSuffix_append]
  rw [find?_append_of_none _ idir _ (fun e he => by rw [hfresh e he]; rfl)]
  have hmatch : (strStartsWith (timestampName now ++ '.' :: ['p', 'n', 'g'])
      (timestampName now) &&
      !strEndsWith (timestampName now ++ '.' :: ['p', 'n', 'g']) txtExt) = true := by
    rw [strStartsWith_append, strEndsWith_dotext (timestampName now) ['p', 'n', 'g']
      rfl (by decide)]
    rfl
  simp only [List.find?_cons, hmatch]
  simp [extOfFilename_append (timestampName now) ['p', 'n', 'g'] (by decide)]
  exact ⟨rfl, by decide⟩

/-- Witness for C6 at a concrete byte payload and fresh store. -/
theorem claim_C6_witness :
    ∃ res : ImageResult,
      getCorrespondingImage
        ((handleMediaRequest instant0
          ⟨none, some (encodeB64 [0, 127, 255, 10]), some "image/png".data⟩
          (some []) (FetchOutcome.success []) [] []).2.2)
        (timestampName instant0 ++ txtExt) = some res ∧
      decodeB64 res.base64 = [0, 127, 255, 10] ∧ res.mediaType = "image/png".data :=
  claim_C6 instant0 [0, 127, 255, 10] [] [] [] [] (by decide) (by simp)

/-! ## Claim C7 -/

/-- Claim C7: when the model text contains no citation marker, parsing
yields a null cited timestamp and the composed response has no image
part: its single text part is the whole model text trimmed. -/
theorem claim_C7 (text : LC) (dir : Dir) (hno : findRelImage text = none) :
    processResponse (some text) = (trimList text, none) ∧
    runQueryTail (some text) dir = (none, [Part.text (trimList text)]) := by
  have h1 : processResponse (some text) = (trimList text, none) := by
    simp [processResponse, hno]
  refine ⟨h1, ?_⟩
  unfold runQueryTail
  rw [h1]
  rfl

/-- Witness for C7 on a marker-free model text. -/
theorem claim_C7_witness :
    processResponse (some "hello world ".data) =
      (trimList "hello world ".data, none) ∧
    runQueryTail (some "hello world ".data) [] =
      (none, [Part.text (trimList "hello world ".data)]) :=
  claim_C7 "hello world ".data [] (by decide)

/-! ## Claim C9 -/

/-- Claim C9: on valid clock fields the codec's string order agrees
exactly with chronological field order, the encoding is injective —
so instants in different seconds order correctly — and instants within
the same second (equal fields) encode to the same string. -/
theorem claim_C9 (t1 t2 : Instant) (h1 : validInstant t1) (h2 : validInstant t2) :
    ((lexLt (timestampName t1) (timestampName t2) = true) ↔ instantLt t1 t2) ∧
    (timestampName t1 = timestampName t2 ↔ t1 = t2) := by
  refine ⟨timestampName_lt_iff t1 t2 h1 h2, ⟨timestampName_inj t1 t2 h1 h2, ?_⟩⟩
  intro h
  rw [h]

/-- Witness for C9 on two concrete instants one second apart. -/
theorem claim_C9_witness :
    lexLt (timestampName ⟨2025, 5, 17, 2, 40, 24⟩) (timestampName ⟨2025, 5, 17, 2, 40, 25⟩) =
      true :=
  (claim_C9 ⟨2025, 5, 17, 2, 40, 24⟩ ⟨2025, 5, 17, 2, 40, 25⟩ (by decide) (by decide)).1.2
    (by decide)

/-! ## Claim C10 -/

/-- Claim C10: image ingestion is not atomic: when the describe step
fails — missing API key or a non-success upstream response — the
request answers with an error payload while the image file written at
the allocated timestamp stays persisted, and no paired description
text file exists for that timestamp. -/
theorem claim_C10 (now : Instant) (img : LC) (mt : Option LC) (tdir : List (LC × LC))
    (idir : Dir) (key : Option LC) (outcome : FetchOutcome)
    (hfail : key = none ∨ ∃ st b, outcome = FetchOutcome.httpError st b)
    (hfresh : ∀ fd, (timestampName now ++ txtExt, fd) ∉ idir)
    (hext : extFromMediaType (mt.getD "image/png".data) ≠ "txt".data) :
    ∃ msg, handleMediaRequest now ⟨none, some img, mt⟩ key outcome tdir idir =
      (HttpResponse.serverError msg, tdir,
        idir ++ [(timestampName now ++ '.' :: extFromMediaType (mt.getD "image/png".data),
          FileData.bytes (decodeB64 img))]) ∧
      ∀ fd, (timestampName now ++ txtExt, fd) ∉
        idir ++ [(timestampName now ++ '.' :: extFromMediaType (mt.getD "image/png".data),
          FileData.bytes (decodeB64 img))] := by
  have hname : ∀ fd fd' : FileData,
      (timestampName now ++ txtExt, fd) ≠
        (timestampName now ++ '.' :: extFromMediaType (mt.getD "image/png".data), fd') := by
    intro fd fd' he
    rw [Prod.mk.injEq] at he
    have hkey : txtExt = '.' :: extFromMediaType (mt.getD "image/png".data) :=
      List.append_cancel_left he.1
    rw [show txtExt = '.' :: "txt".data from rfl] at hkey
    exact hext (by simpa using hkey.symm)
  have hnot : ∀ fd, (timestampName now ++ txtExt, fd) ∉
      idir ++ [(timestampName now ++ '.' :: extFromMediaType (mt.getD "image/png".data),
        FileData.bytes (decodeB64 img))] := by
    intro fd hmem
    rcases List.mem_append.1 hmem with h | h
    · exact hfresh fd h
    · rcases List.mem_singleton.1 h with h'
      exact hname fd _ h'
  rcases hfail with hk | ⟨st, b, ho⟩
  · subst hk
    exact ⟨_, rfl, hnot⟩
  · subst ho
    cases key with
    | none => exact ⟨_, rfl, hnot⟩
    | some k => exact ⟨_, rfl, hnot⟩

/-- Witness for C10: missing key on a fresh store leaves the image but
no description. -/
theorem claim_C10_witness :
    ∃ msg, handleMediaRequest instant0 ⟨none, some "AAAA".data, none⟩ none
        (FetchOutcome.success []) [] [] =
      (HttpResponse.serverError msg, [],
        [(timestampName instant0 ++ '.' :: extFromMediaType "image/png".data,
          FileData.bytes (decodeB64 "AAAA".data))]) ∧
      ∀ fd, (timestampName instant0 ++ txtExt, fd) ∉
        [(timestampName instant0 ++ '.' :: extFromMediaType "image/png".data,
          FileData.bytes (decodeB64 "AAAA".data))] := by
  have h := claim_C10 instant0 "AAAA".data none [] [] none (FetchOutcome.success [])
    (Or.inl rfl) (by simp) (by decide)
  simpa using h

end MCP
